import Mathlib

/-!
Verification of `ipydeps` (`src/ipydeps/ipydeps.py`) against its
natural-language specification.

The Python module is shallowly embedded: pure helpers become Lean functions,
and the effectful parts (subprocess invocations, the network fetch of the
override document, the filesystem, the interpreter's installed-package
registry) are passed in explicitly as values of a `PipWorld` record.  Python
`dict`s become association lists with insertion-order semantics
(`dictLookup` / `dictInsert`), Python `set`s become `Finset String`, and log
calls / external effects become values of an `Event` trace.  Python raises
are modelled with `Except String`: a `NameError`, `KeyError`, `TypeError` or
`AttributeError` that the source can raise is an `Except.error` carrying the
exception text.

Python iterates sets in an unspecified order; wherever the source iterates a
set (warning messages, pip argument lists) the embedding fixes the order by
sorting names in codepoint-lexicographic order, which is also what the
source's explicit `sorted(...)` calls produce.  Lean's built-in `String`
order does not reduce in the kernel, so a code-point order `strLe` and an
insertion-sort based `sortNames` are defined here and used throughout.
-/

namespace Ipydeps

/-- Code-point lexicographic comparison of character lists, the order Python
uses for `sorted` on strings. -/
def lexLe : List Char → List Char → Bool
  | [], _ => true
  | _ :: _, [] => false
  | a :: as, b :: bs =>
    if a.toNat < b.toNat then true
    else if b.toNat < a.toNat then false
    else lexLe as bs

/-- Code-point lexicographic order on strings. -/
def strLe (a b : String) : Prop := lexLe a.toList b.toList = true

instance : DecidableRel strLe := fun _ _ => inferInstanceAs (Decidable (_ = true))

theorem char_eq_of_toNat_eq (a b : Char) (h : a.toNat = b.toNat) : a = b := by
  apply Char.eq_of_val_eq
  apply UInt32.eq_of_val_eq
  exact Fin.eq_of_val_eq h

theorem lexLe_total (x y : List Char) : lexLe x y = true ∨ lexLe y x = true := by
  induction x generalizing y with
  | nil => left; rfl
  | cons a as ih =>
    cases y with
    | nil => right; rfl
    | cons b bs =>
      rcases Nat.lt_trichotomy a.toNat b.toNat with h | h | h
      · left; simp [lexLe, h]
      · rcases ih bs with h2 | h2
        · left; simp [lexLe, h, h2]
        · right; simp [lexLe, h.symm, h2]
      · right; simp [lexLe, h]

theorem lexLe_trans (x y z : List Char) (h1 : lexLe x y = true) (h2 : lexLe y z = true) :
    lexLe x z = true := by
  induction x generalizing y z with
  | nil => rfl
  | cons a as ih =>
    cases y with
    | nil => simp [lexLe] at h1
    | cons b bs =>
      cases z with
      | nil => simp [lexLe] at h2
      | cons c cs =>
        simp only [lexLe] at h1 h2 ⊢
        by_cases hab : a.toNat < b.toNat
        · by_cases hbc : b.toNat < c.toNat
          · simp [show a.toNat < c.toNat by omega]
          · by_cases hcb : c.toNat < b.toNat
            · rw [if_neg hbc, if_pos hcb] at h2; simp at h2
            · simp [show a.toNat < c.toNat by omega]
        · by_cases hba : b.toNat < a.toNat
          · rw [if_neg hab, if_pos hba] at h1; simp at h1
          · by_cases hbc : b.toNat < c.toNat
            · simp [show a.toNat < c.toNat by omega]
            · by_cases hcb : c.toNat < b.toNat
              · rw [if_neg hbc, if_pos hcb] at h2; simp at h2
              · rw [if_neg hab, if_neg hba] at h1
                rw [if_neg hbc, if_neg hcb] at h2
                rw [if_neg (show ¬a.toNat < c.toNat by omega),
                  if_neg (show ¬c.toNat < a.toNat by omega)]
                exact ih bs cs h1 h2

theorem lexLe_antisymm (x y : List Char) (h1 : lexLe x y = true) (h2 : lexLe y x = true) :
    x = y := by
  induction x generalizing y with
  | nil =>
    cases y with
    | nil => rfl
    | cons b bs => simp [lexLe] at h2
  | cons a as ih =>
    cases y with
    | nil => simp [lexLe] at h1
    | cons b bs =>
      simp only [lexLe] at h1 h2
      by_cases hab : a.toNat < b.toNat
      · rw [if_neg (show ¬b.toNat < a.toNat by omega), if_pos hab] at h2
        · simp at h2
      · by_cases hba : b.toNat < a.toNat
        · rw [if_neg hab, if_pos hba] at h1; simp at h1
        · rw [if_neg hab, if_neg hba] at h1
          rw [if_neg hba, if_neg hab] at h2
          rw [char_eq_of_toNat_eq a b (by omega), ih bs h1 h2]

instance : IsTotal String strLe := ⟨fun a b => lexLe_total a.toList b.toList⟩

instance : IsTrans String strLe :=
  ⟨fun a b c h1 h2 => lexLe_trans a.toList b.toList c.toList h1 h2⟩

instance : IsAntisymm String strLe :=
  ⟨fun a b h1 h2 => by
    have h := lexLe_antisymm a.toList b.toList h1 h2
    calc a = String.mk a.toList := rfl
    _ = String.mk b.toList := by rw [h]
    _ = b := rfl⟩

/-- Deterministic enumeration of a Python set of names: the elements in
codepoint order (an insertion sort, so that it evaluates in the kernel). -/
def sortNames (s : Finset String) : List String :=
  Quotient.liftOn s.val (List.insertionSort strLe) (fun a b hab =>
    List.eq_of_perm_of_sorted
      ((List.perm_insertionSort strLe a).trans (hab.trans (List.perm_insertionSort strLe b).symm))
      (List.sorted_insertionSort strLe a) (List.sorted_insertionSort strLe b))

theorem mem_sortNames (s : Finset String) (a : String) : a ∈ sortNames s ↔ a ∈ s := by
  rcases s with ⟨val, nodup⟩
  induction val using Quotient.inductionOn with
  | h l =>
    show a ∈ List.insertionSort strLe l ↔ _
    rw [(List.perm_insertionSort strLe l).mem_iff]
    rfl

theorem length_sortNames (s : Finset String) : (sortNames s).length = s.card := by
  rcases s with ⟨val, nodup⟩
  induction val using Quotient.inductionOn with
  | h l =>
    show (List.insertionSort strLe l).length = _
    rw [(List.perm_insertionSort strLe l).length_eq]
    rfl

/-- Trace of the observable actions of a run: log lines (`logger.warning`,
`logger.error`, `logger.info`, `logger.debug`) and external effects (the
network fetch of the override document, a `currently_installed` query, a
subprocess run). -/
inductive Event
  | warning (msg : String)
  | error (msg : String)
  | info (msg : String)
  | debug (msg : String)
  | fetch
  | queryInstalled
  | runCmd (cmd : List String)
  | runPip (cmd : List String)
  deriving DecidableEq, Repr

/-- Value type of one package's override entry: an ordered list of commands,
each a list of argument strings. -/
abbrev Cmds := List (List String)

/-- The decoded override JSON document: version tag -> (package -> commands),
as insertion-ordered association lists (the embedding of Python dicts). -/
abbrev DepJson := List (String × List (String × Cmds))

/-- Lookup in the association-list embedding of a Python dict. -/
def dictLookup {α : Type} : List (String × α) → String → Option α
  | [], _ => none
  | (k, v) :: rest, key => if k = key then some v else dictLookup rest key

/-- Assignment `d[key] = v` in the association-list embedding of a Python
dict: replaces in place if the key is present, else appends. -/
def dictInsert {α : Type} : List (String × α) → String → α → List (String × α)
  | [], key, v => [(key, v)]
  | (k, w) :: rest, key, v =>
    if k = key then (key, v) :: rest else (k, w) :: dictInsert rest key v

theorem dictLookup_dictInsert_self {α : Type} (d : List (String × α)) (k : String) (v : α) :
    dictLookup (dictInsert d k v) k = some v := by
  induction d with
  | nil => simp [dictInsert, dictLookup]
  | cons p rest ih =>
    rcases p with ⟨k0, v0⟩
    by_cases h : k0 = k
    · simp [dictInsert, dictLookup, h]
    · simp [dictInsert, dictLookup, h, ih]

theorem dictLookup_dictInsert_ne {α : Type} (d : List (String × α)) (k key : String) (v : α)
    (h : key ≠ k) : dictLookup (dictInsert d k v) key = dictLookup d key := by
  have hk : ¬k = key := fun he => h he.symm
  induction d with
  | nil => simp [dictInsert, dictLookup, hk]
  | cons p rest ih =>
    rcases p with ⟨k0, v0⟩
    by_cases h0 : k0 = k
    · subst h0
      simp [dictInsert, dictLookup, hk]
    · simp only [dictInsert, if_neg h0]
      by_cases h1 : k0 = key
      · simp [dictLookup, h1]
      · simp [dictLookup, h1, ih]

/-- ASCII lowercasing of one character, the effect of Python `str.lower` on
the ASCII package names this program handles. -/
def lowerChar (c : Char) : Char :=
  if 'A' ≤ c ∧ c ≤ 'Z' then Char.ofNat (c.toNat + 32) else c

/-- Embedding of Python `str.lower` (on the ASCII names this program
handles). -/
def lowerStr (s : String) : String := String.mk (s.toList.map lowerChar)

/-- Interpreter version triple, the embedding of `sys.version_info`. -/
structure PyVersion where
  major : Nat
  minor : Nat
  micro : Nat

/-- Embedding of `py_name_major` (line 99). -/
def py_name_major (v : PyVersion) : String := "python-" ++ toString v.major

/-- Embedding of `py_name_minor` (line 96). -/
def py_name_minor (v : PyVersion) : String :=
  "python-" ++ toString v.major ++ "." ++ toString v.minor

/-- Embedding of `py_name_micro` (line 93). -/
def py_name_micro (v : PyVersion) : String :=
  "python-" ++ toString v.major ++ "." ++ toString v.minor ++ "." ++ toString v.micro

/-- Outcome of the `urlopen` + body-decode + `json.loads` pipeline inside
`read_dependencies_json`, supplied by the environment: the fetch raised
`HTTPError` (the server responded with an error status; caught at line 132);
the fetch raised a `URLError` that is not an `HTTPError` (connection refused,
DNS failure — not caught by any handler); decoding the response body with
`str(resp.read(), encoding='utf8')` raised `UnicodeDecodeError` (line 136,
not caught); `json.loads` raised `JSONDecodeError` (caught at line 140); or a
document was decoded. -/
inductive FetchOutcome
  | httpError (msg : String)
  | urlError (msg : String)
  | bodyDecodeError (msg : String)
  | jsonDecodeError (msg : String)
  | ok (doc : DepJson)

/-- Outcome of one `subprocess.check_output` call, supplied by the
environment: clean exit, or `CalledProcessError` with a return code and
captured standard error. -/
inductive SubprocessOutcome
  | success
  | failed (returncode : Int) (stderr : String)

/-- The duck-typed `Union[str, Sequence]` argument of `get_pkg_names` and
`pip`. -/
inductive StrOrSeq
  | str (s : String)
  | seq (l : List String)

/-- Character class `[A-Za-z]` of `package_name_pattern` (line 28). -/
def isAlphaChar (c : Char) : Bool :=
  (decide ('A' ≤ c) && decide (c ≤ 'Z')) || (decide ('a' ≤ c) && decide (c ≤ 'z'))

/-- Character class `[0-9]` of `package_name_pattern`. -/
def isDigitChar (c : Char) : Bool := decide ('0' ≤ c) && decide (c ≤ '9')

/-- Character class `[A-Za-z0-9_\-]` of `package_name_pattern`. -/
def isNameTail (c : Char) : Bool :=
  isAlphaChar c || isDigitChar c || c == '_' || c == '-'

/-- Greedy matcher for `(\.[0-9]+)*`, the trailing version components of
`package_name_pattern`.  Returns the matched characters and the rest.  The
fuel argument only bounds the recursion; each successful round consumes at
least two characters, so fuel equal to the input length never runs out. -/
def dotDigitsRun : Nat → List Char → List Char × List Char
  | 0, l => ([], l)
  | _ + 1, [] => ([], [])
  | fuel + 1, c :: r =>
    if c = '.' then
      let d := r.takeWhile isDigitChar
      if d.isEmpty then ([], c :: r)
      else
        let p := dotDigitsRun fuel (r.dropWhile isDigitChar)
        (c :: (d ++ p.1), p.2)
    else ([], c :: r)

/-- Matcher for `[0-9]+\.[0-9]+(\.[0-9]+)*`, the version number that follows
a comparator in `package_name_pattern`; `none` when the text after the
comparator is not a version number (the regex engine then backtracks). -/
def matchVersionAfterOp (l : List Char) : Option (List Char × List Char) :=
  let d1 := l.takeWhile isDigitChar
  if d1.isEmpty then none
  else
    match l.dropWhile isDigitChar with
    | c2 :: r2 =>
      if c2 = '.' then
        let d2 := r2.takeWhile isDigitChar
        if d2.isEmpty then none
        else
          let p := dotDigitsRun (r2.dropWhile isDigitChar).length (r2.dropWhile isDigitChar)
          some (d1 ++ c2 :: (d2 ++ p.1), p.2)
      else none
    | [] => none

/-- One single-character comparator alternative (`<` or `>`) together with
its continuation: the alternative fails, and the engine backtracks to the
next one, if either the operator or the version after it fails to match. -/
def tryOp1 (op : Char) (l : List Char) : Option (List Char × List Char) :=
  match l with
  | [] => none
  | c :: r =>
    if c = op then
      match matchVersionAfterOp r with
      | some p => some (op :: p.1, p.2)
      | none => none
    else none

/-- One two-character comparator alternative (`<=`, `>=` or `==`) together
with its continuation. -/
def tryOp2 (op1 op2 : Char) (l : List Char) : Option (List Char × List Char) :=
  match l with
  | c1 :: c2 :: r =>
    if c1 = op1 ∧ c2 = op2 then
      match matchVersionAfterOp r with
      | some p => some (op1 :: op2 :: p.1, p.2)
      | none => none
    else none
  | _ => none

/-- Matcher for `((<|>|<=|>=|==)[0-9]+\.[0-9]+(\.[0-9]+)*)`, the optional
version-specifier group of `package_name_pattern`; the alternatives are
tried in the regex's order, each with the full continuation, exactly as a
backtracking engine does. -/
def matchVersion (l : List Char) : Option (List Char × List Char) :=
  match tryOp1 '<' l with
  | some p => some p
  | none =>
    match tryOp1 '>' l with
    | some p => some p
    | none =>
      match tryOp2 '<' '=' l with
      | some p => some p
      | none =>
        match tryOp2 '>' '=' l with
        | some p => some p
        | none => tryOp2 '=' '=' l

/-- Attempt of `package_name_pattern` at the head of the input:
`[A-Za-z][A-Za-z0-9_\-]+` and then the optional version group.  The name
run is greedy; no backtracking across the name boundary can occur because
the name class is disjoint from the comparator characters and the version
group may match empty. -/
def matchAt (l : List Char) : Option (List Char × List Char) :=
  match l with
  | [] => none
  | c :: cs =>
    if isAlphaChar c then
      let name := cs.takeWhile isNameTail
      if name.isEmpty then none
      else
        match matchVersion (cs.dropWhile isNameTail) with
        | some p => some (c :: (name ++ p.1), p.2)
        | none => some (c :: name, cs.dropWhile isNameTail)
    else none

/-- Scanning loop of `re.findall`: leftmost non-overlapping matches, resuming
after each match, advancing one character after a failed attempt.  Fuel
bounds the recursion; every step consumes at least one character, so fuel
equal to the input length never runs out. -/
def findallFuel : Nat → List Char → List (List Char)
  | 0, _ => []
  | _ + 1, [] => []
  | fuel + 1, c :: r =>
    match matchAt (c :: r) with
    | some p => p.1 :: findallFuel fuel p.2
    | none => findallFuel fuel r

/-- Embedding of `package_name_pattern.findall` (line 28): all matches of the
safelist regex, in order. -/
def findall (l : List Char) : List (List Char) := findallFuel l.length l

/-- Embedding of `valid_pkg_names` (lines 77-84): the full-match group of
every `findall` match. -/
def valid_pkg_names (s : String) : List String :=
  (findall s.toList).map String.mk

/-- Python whitespace stripped by `str.strip`. -/
def isPySpace (c : Char) : Bool :=
  c == ' ' || c == '\t' || c == '\n' || c == '\r' || c == '\x0b' || c == '\x0c'

/-- Embedding of Python `str.strip` on the character list. -/
def stripChars (l : List Char) : List Char :=
  ((l.dropWhile isPySpace).reverse.dropWhile isPySpace).reverse

/-- Embedding of `str.strip`. -/
def pyStrip (s : String) : String := String.mk (stripChars s.toList)

/-- Embedding of the `Union[str, Sequence]` normalization at the top of
`get_pkg_names` (lines 87-88): a sequence is joined with spaces. -/
def joinInput : StrOrSeq → String
  | StrOrSeq.str s => s
  | StrOrSeq.seq l => String.intercalate " " l

/-- Embedding of `get_pkg_names` (lines 86-91): the deduplicated set of
stripped, non-empty regex matches of the joined input. -/
def get_pkg_names (x : StrOrSeq) : Finset String :=
  (((valid_pkg_names (joinInput x)).map pyStrip).filter (fun p => 0 < p.length)).toFinset

/-- Warning text of `case_insensitive_dependencies_json` (line 114). -/
def dupWarnMsg (pkg : String) : String :=
  "Duplicate package name " ++ pkg ++
    " in dependencies JSON.  Package names are case-insensitive.  Overwriting!"

/-- Inner loop of `case_insensitive_dependencies_json` (lines 109-116) over
the keys of one version's package dict.  The source reassigns the loop
variable, `pkg = pkg.lower()`, before reading `cmds = packages[pkg]`, so the
value lookup uses the already-lowercased key: when that key is absent from
the original dict the lookup raises `KeyError`. -/
def lowerPkgsLoop (packages : List (String × Cmds)) :
    List String → List (String × Cmds) → List Event →
    Except String (List (String × Cmds) × List Event)
  | [], acc, logs => Except.ok (acc, logs)
  | key :: rest, acc, logs =>
    let pkg := lowerStr key
    match dictLookup packages pkg with
    | none => Except.error ("KeyError: " ++ pkg)
    | some cmds =>
      let logs2 := if (dictLookup acc pkg).isSome then logs ++ [Event.warning (dupWarnMsg pkg)] else logs
      lowerPkgsLoop packages rest (dictInsert acc pkg cmds) logs2

/-- Outer loop of `case_insensitive_dependencies_json` (lines 105-116) over
the version tags.  `for version in dep_json` iterates the keys and
`packages = dep_json[version]` looks the value up again, as in the source. -/
def lowerVersionsLoop (dep_json : DepJson) :
    List String → DepJson → List Event → Except String (DepJson × List Event)
  | [], acc, logs => Except.ok (acc, logs)
  | version :: rest, acc, logs =>
    match dictLookup dep_json version with
    | none => Except.error ("KeyError: " ++ version)
    | some packages =>
      match lowerPkgsLoop packages (packages.map Prod.fst) [] [] with
      | Except.error e => Except.error e
      | Except.ok r => lowerVersionsLoop dep_json rest (dictInsert acc version r.1) (logs ++ r.2)

/-- Embedding of `case_insensitive_dependencies_json` (lines 102-118). -/
def case_insensitive_dependencies_json (dep_json : DepJson) :
    Except String (DepJson × List Event) :=
  lowerVersionsLoop dep_json (dep_json.map Prod.fst) [] []

/-- Embedding of `read_dependencies_json` (lines 127-144): only an
`HTTPError` from the fetch (line 132) or a `JSONDecodeError` from parsing
(line 140) is caught, logged and turned into an empty table; a non-HTTP
`URLError` from `urlopen` and a `UnicodeDecodeError` from decoding the body
match no `except` clause and propagate; a decoded document is case-folded. -/
def read_dependencies_json (fetch : FetchOutcome) : Except String (DepJson × List Event) :=
  match fetch with
  | FetchOutcome.httpError msg => Except.ok ([], [Event.error msg])
  | FetchOutcome.urlError msg => Except.error ("URLError: " ++ msg)
  | FetchOutcome.bodyDecodeError msg => Except.error ("UnicodeDecodeError: " ++ msg)
  | FetchOutcome.jsonDecodeError msg => Except.ok ([], [Event.error msg])
  | FetchOutcome.ok doc => case_insensitive_dependencies_json doc

/-- One step of the per-level loops of `find_overrides` (lines 159-172): if
the level's dict has an entry for the package, overwrite the override. -/
def overrideStep (m : List (String × Cmds)) (ov : List (String × Cmds)) (pkg : String) :
    List (String × Cmds) :=
  match dictLookup m pkg with
  | some cmds => dictInsert ov pkg cmds
  | none => ov

/-- One of the three `if <tag> in dep_json: for pkg in packages: ...` blocks
of `find_overrides`: a no-op when the version tag is absent. -/
def applyLevel (level : Option (List (String × Cmds))) (packages : List String)
    (overrides : List (String × Cmds)) : List (String × Cmds) :=
  match level with
  | none => overrides
  | some m => packages.foldl (overrideStep m) overrides

/-- Embedding of `find_overrides` (lines 146-174).  The requested set is
iterated in `sortNames` order (Python set order is unspecified); the major,
minor and micro blocks run in the source's order, so later (more specific)
levels overwrite earlier ones.  The `Event.fetch` records that
`read_dependencies_json` contacted the configured URL; on an empty request
set the function returns before fetching. -/
def find_overrides (packages : Finset String) (ver : PyVersion) (fetch : FetchOutcome) :
    Except String (List (String × Cmds) × List Event) :=
  if packages.card = 0 then Except.ok ([], [])
  else
    match read_dependencies_json fetch with
    | Except.error e => Except.error e
    | Except.ok dj =>
      let pkgList := sortNames packages
      let o1 := applyLevel (dictLookup dj.1 (py_name_major ver)) pkgList []
      let o2 := applyLevel (dictLookup dj.1 (py_name_minor ver)) pkgList o1
      let o3 := applyLevel (dictLookup dj.1 (py_name_micro ver)) pkgList o2
      Except.ok (o3, Event.fetch :: dj.2)

/-- Two-level lookup in the case-folded override document: the commands the
document associates with `pkg` at version tag `tag`, if any. -/
def lookup2 (dj : DepJson) (tag pkg : String) : Option Cmds :=
  match dictLookup dj tag with
  | none => none
  | some m => dictLookup m pkg

/-- Embedding of `run_get_stderr` (lines 176-186): the subprocess outcome,
supplied by the environment, is turned into a `(returncode, stderr)` pair;
the `CalledProcessError` is caught, so this never raises. -/
def run_get_stderr (outcome : SubprocessOutcome) : Int × Option String :=
  match outcome with
  | SubprocessOutcome.success => (0, none)
  | SubprocessOutcome.failed rc err => (rc, some err)

/-- Embedding of `currently_installed` (lines 202-205): the union of the
`pkg_resources` project names and the parsed `pip freeze` names, lowercased.
The two name sets are supplied by the environment. -/
def currently_installed (pr pf : Finset String) : Finset String :=
  (pr ∪ pf).image lowerStr

/-- Embedding of `subtract_installed` (lines 207-209).  The body computes
`requested_packages` but then returns `packages - already_installed`, and
`packages` is bound neither in the function nor at module level: evaluating
the body raises `NameError`.  The local frame is modelled explicitly so that
the unbound-name lookup is part of the embedding. -/
def subtract_installed (already_installed requested : Finset String) :
    Except String (Finset String) :=
  let requested_packages := requested.image lowerStr
  match dictLookup
      [("already_installed", already_installed), ("requested", requested),
        ("requested_packages", requested_packages)] "packages" with
  | some packages => Except.ok (packages \ already_installed)
  | none => Except.error "NameError: name 'packages' is not defined"

/-- Warning text of `subtract_stdlib` (line 220). -/
def stdlibWarnMsg (package : String) : String :=
  package ++ " is part of the Python standard library and will be skipped.  " ++
    "Remove it from the list to remove this warning."

/-- Embedding of `subtract_stdlib` (lines 211-222), with the standard-library
name set (`stdlib_packages()` from the package's `utils` module) supplied as
an argument: one warning per name in the intersection (in `sortNames` order;
Python's set iteration order is unspecified), and the set difference is
returned. -/
def subtract_stdlib (stdlib packages : Finset String) : Finset String × List Event :=
  ((packages \ stdlib), (sortNames (packages ∩ stdlib)).map (fun p => Event.warning (stdlibWarnMsg p)))

/-- Modelled from the spec: `normalize_package_names` is imported from the
package's `utils` module, which is not under `src/`; per the spec's data
model a package name is "a normalized, lowercase string", so the helper is
modelled as lowercasing each requested name. -/
def normalize_package_names (packages : Finset String) : Finset String :=
  packages.image lowerStr

/-- Embedding of `run_and_log_error` (lines 224-228): run the command and log
the captured standard error when the exit code is non-zero. -/
def run_and_log_error (cmdResult : List String → SubprocessOutcome) (cmd : List String) :
    List Event :=
  let r := run_get_stderr (cmdResult cmd)
  [Event.runCmd cmd] ++
    (match r.2 with
     | some err => if r.1 ≠ 0 then [Event.error err] else []
     | none => [])

/-- Embedding of `run_overrides` (lines 230-237): for each overridden package
in dict order, log and run each non-empty command, continuing past
failures. -/
def run_overrides (cmdResult : List String → SubprocessOutcome)
    (overrides : List (String × Cmds)) : List Event :=
  overrides.foldl (fun ev entry =>
    ev ++ [Event.info ("Executing overrides for " ++ entry.1)] ++
      entry.2.foldl (fun ev2 command =>
        ev2 ++
          (if 0 < command.length then
            [Event.debug (String.intercalate " " command)] ++ run_and_log_error cmdResult command
          else [])) []) []

/-- Embedding of `run_pip` (lines 31-59), with the pip subprocess outcome, the
interpreter path and the PKI material paths supplied by the environment.
Returns the `(returncode, stderr)` pair and the trace. -/
def run_pip (pipResult : List String → SubprocessOutcome) (executable : String)
    (combined_cert_path ca_path : String) (packages : List String)
    (use_pki verbose : Bool) : (Int × Option String) × List Event :=
  let args := if verbose then ["install", "-vvv"] else ["install"]
  let args2 :=
    if use_pki then
      args ++ ["--client-cert=" ++ combined_cert_path, "--cert=" ++ ca_path]
    else args
  let cmd := [executable, "-m", "pip"] ++ args2 ++ packages
  (run_get_stderr (pipResult cmd), [Event.runPip cmd])

/-- Embedding of `log_currently_installed` (lines 239-243). -/
def log_currently_installed (before requested : Finset String) : List Event :=
  let already_installed := before ∩ requested
  if 0 < already_installed.card then
    [Event.info ("Packages currently installed: " ++
      String.intercalate ", " (sortNames already_installed))]
  else []

/-- Embedding of `log_before_after` (lines 245-251). -/
def log_before_after (before after : Finset String) : List Event :=
  let new_packages := after \ before
  if new_packages.card = 0 then [Event.warning "No new packages installed"]
  else
    [Event.info ("New packages installed: " ++ String.intercalate ", " (sortNames new_packages))]

/-- Embedding of `find_pip_config_path` (lines 253-257): `None` when there is
no config directory; otherwise `configs_path / config_name`, which raises
`TypeError` when `config_name` is `None` (pathlib refuses `path / None`). -/
def find_pip_config_path (config_name : Option String) (configs_path : Option String) :
    Except String (Option String) :=
  match configs_path with
  | none => Except.ok none
  | some cp =>
    match config_name with
    | some name => Except.ok (some (cp ++ "/" ++ name))
    | none =>
      Except.error "TypeError: unsupported operand type(s) for /: PosixPath and NoneType"

/-- Embedding of `pip_config_found` (lines 259-267): vacuously true when no
config name was requested; otherwise `pip_config_path.exists()` — which
raises `AttributeError` when the resolved path is `None` — and an error log
plus `False` when the file is missing. -/
def pip_config_found (config_name : Option String) (pip_config_path : Option String)
    (pathExists : String → Bool) : Except String (Bool × List Event) :=
  match config_name with
  | none => Except.ok (true, [])
  | some name =>
    match pip_config_path with
    | none => Except.error "AttributeError: NoneType object has no attribute exists"
    | some p =>
      if pathExists p then Except.ok (true, [])
      else
        Except.ok (false,
          [Event.error ("Could not find pip config named " ++ name ++ " at " ++ p)])

/-- The external collaborators of one `pip(...)` call: the config directory
(`config_dir`), the filesystem, the two installed-name sources behind each of
the three `currently_installed()` call sites (A: line 283, B: line 298,
C: line 310), the standard-library name set, the interpreter version, the
override-document fetch outcome, the subprocess runner, and the PKI material
paths used by `run_pip`. -/
structure PipWorld where
  configs_path : Option String
  pathExists : String → Bool
  prA : Finset String
  pfA : Finset String
  prB : Finset String
  pfB : Finset String
  prC : Finset String
  pfC : Finset String
  stdlib : Finset String
  ver : PyVersion
  fetch : FetchOutcome
  cmdResult : List String → SubprocessOutcome
  pipResult : List String → SubprocessOutcome
  executable : String
  combined_cert_path : String
  ca_path : String

/-- Embedding of the top-level `pip` entry point (lines 269-312), following
the source's control flow line by line.  The code after the
`subtract_installed` call of line 291 is unreachable — that call always
raises `NameError` — but is embedded anyway; the `len(packages)` check of
line 300 likewise reads a name that is unbound in the function's scope. -/
def pip (w : PipWorld) (requested_packages : StrOrSeq) (verbose use_pki use_overrides : Bool)
    (config : Option String) : Except String (List Event) :=
  match find_pip_config_path config w.configs_path with
  | Except.error e => Except.error e
  | Except.ok pip_config_path =>
    match pip_config_found config pip_config_path w.pathExists with
    | Except.error e => Except.error e
    | Except.ok found =>
      if found.1 = false then Except.ok found.2
      else
        let packages_before_install := currently_installed w.prA w.pfA
        let r1 := get_pkg_names requested_packages
        let r2 := normalize_package_names r1
        let sub := subtract_stdlib w.stdlib r2
        let ev1 := found.2 ++ [Event.queryInstalled] ++ sub.2 ++
          log_currently_installed packages_before_install sub.1
        match subtract_installed packages_before_install sub.1 with
        | Except.error e => Except.error e
        | Except.ok requested4 =>
          match
            (if use_overrides then
              match find_overrides requested4 w.ver w.fetch with
              | Except.error e => Except.error e
              | Except.ok fo => Except.ok (fo.2 ++ run_overrides w.cmdResult fo.1)
            else Except.ok []) with
          | Except.error e => Except.error e
          | Except.ok ev2 =>
            let installed2 := currently_installed w.prB w.pfB
            match subtract_installed installed2 requested4 with
            | Except.error e => Except.error e
            | Except.ok packages_to_install =>
              match dictLookup
                  [("packages_before_install", packages_before_install),
                    ("requested_packages", requested4), ("installed2", installed2),
                    ("packages_to_install", packages_to_install)] "packages" with
              | none => Except.error "NameError: name 'packages' is not defined"
              | some packages =>
                let ev3 :=
                  if 0 < packages.card then
                    let rp := run_pip w.pipResult w.executable w.combined_cert_path w.ca_path
                      (sortNames packages_to_install) use_pki verbose
                    [Event.debug ("Running pip to install " ++
                        String.intercalate ", " (sortNames packages))] ++ rp.2 ++
                      (match rp.1.2 with
                       | some err => if rp.1.1 ≠ 0 then [Event.error err] else []
                       | none => [])
                  else []
                let packages_after_install := currently_installed w.prC w.pfC
                Except.ok (ev1 ++ ev2 ++ [Event.queryInstalled] ++ ev3 ++
                  [Event.queryInstalled] ++
                  log_before_after packages_before_install packages_after_install ++
                  [Event.debug "Done"])

/-- C1.  The claim says `subtract_installed(already_installed, requested)`
yields the empty set whenever every lowercased requested name is already
installed, so that `run_pip` is never invoked.  The code instead returns
`packages - already_installed` with `packages` unbound (line 209), so the
call raises `NameError` even on the claim's subset case — here with
`requested = already_installed = \x7b"numpy"\x7d` — and the top-level `pip`
crashes at line 291 before its install-count check (which reads the same
unbound name at line 300). -/
theorem subtract_installed_name_error :
    subtract_installed {"numpy"} {"numpy"} =
      Except.error "NameError: name 'packages' is not defined" := rfl

/-- World for evaluating the `pip` entry point: no config directory, nothing
installed, empty standard-library set, overrides fetch failing benignly. -/
def pipWorldC2 : PipWorld :=
  ⟨none, fun _ => false, ∅, ∅, ∅, ∅, ∅, ∅, ∅, ⟨3, 11, 2⟩, FetchOutcome.httpError "",
    fun _ => SubprocessOutcome.success, fun _ => SubprocessOutcome.success, "python3", "", ""⟩

/-- C2.  The claim says the top-level `pip` entry point always runs to
completion and reports the before/after installed-set diff, with non-zero
subprocess exits only logged.  `run_get_stderr` itself indeed never raises,
but `pip` reaches the `subtract_installed` call of line 291 on every
non-aborting path and that call raises `NameError` (unbound `packages`,
line 209), so the entry point never completes or logs the diff: evaluated
here on a plain `pip("numpy")` call. -/
theorem pip_entry_point_raises :
    pip pipWorldC2 (StrOrSeq.str "numpy") false false true none =
      Except.error "NameError: name 'packages' is not defined" := rfl

/-- C4.  The claim says the commands kept for each lowercased key are those
of the original key.  The source reassigns the loop variable to its
lowercasing before reading the commands (`pkg = pkg.lower()` on line 110,
then `cmds = packages[pkg]` on line 111), so the value is looked up under
the lowercased key: on a document whose only key for a package is the
mixed-case `"NumPy"`, the lookup raises `KeyError: numpy` instead of keeping
`"NumPy"`'s commands under `"numpy"`. -/
theorem case_insensitive_dependencies_json_keyerror :
    case_insensitive_dependencies_json [("python-3", [("NumPy", [["spam"]])])] =
      Except.error "KeyError: numpy" := rfl

/-- C5, counterexample to the claim as stated.  The claim quantifies over
every network or decode failure, but the source catches only `HTTPError`
(line 132) and `JSONDecodeError` (line 140): a network failure on which the
server never responded — urllib's plain `URLError`, here a refused
connection — matches neither `except` clause, so `read_dependencies_json`
raises instead of returning an empty table, and the failure is fatal to
`find_overrides`. -/
theorem read_dependencies_json_urlerror_fatal :
    read_dependencies_json (FetchOutcome.urlError "connection refused") =
      Except.error "URLError: connection refused" ∧
    find_overrides {"numpy"} ⟨3, 11, 2⟩ (FetchOutcome.urlError "connection refused") =
      Except.error "URLError: connection refused" := ⟨rfl, rfl⟩

/-- C5 as amended.  On an `HTTPError` from the fetch or a `JSONDecodeError`
from parsing the body — the two failures the source catches —
`read_dependencies_json` logs the error text and returns the empty override
table, and `find_overrides` then completes normally with no overrides, so
those failures are non-fatal; a non-HTTP `URLError` from `urlopen` or a
`UnicodeDecodeError` while decoding the body is uncaught and propagates. -/
theorem read_dependencies_json_failure_empty (msg : String) :
    read_dependencies_json (FetchOutcome.httpError msg) = Except.ok ([], [Event.error msg]) ∧
    read_dependencies_json (FetchOutcome.jsonDecodeError msg) =
      Except.ok ([], [Event.error msg]) ∧
    (∀ (packages : Finset String) (ver : PyVersion),
      (∃ ev, find_overrides packages ver (FetchOutcome.httpError msg) = Except.ok ([], ev)) ∧
      (∃ ev, find_overrides packages ver (FetchOutcome.jsonDecodeError msg) =
        Except.ok ([], ev))) ∧
    read_dependencies_json (FetchOutcome.urlError msg) =
      Except.error ("URLError: " ++ msg) ∧
    read_dependencies_json (FetchOutcome.bodyDecodeError msg) =
      Except.error ("UnicodeDecodeError: " ++ msg) := by
  refine ⟨rfl, rfl, fun packages ver => ⟨?_, ?_⟩, rfl, rfl⟩ <;> by_cases h : packages.card = 0
  · exact ⟨[], by simp [find_overrides, h]⟩
  · refine ⟨Event.fetch :: [Event.error msg], ?_⟩
    unfold find_overrides
    rw [if_neg h]
    simp [read_dependencies_json, applyLevel, dictLookup]
  · exact ⟨[], by simp [find_overrides, h]⟩
  · refine ⟨Event.fetch :: [Event.error msg], ?_⟩
    unfold find_overrides
    rw [if_neg h]
    simp [read_dependencies_json, applyLevel, dictLookup]

/-- Witness for C5 at a concrete failure message. -/
theorem read_dependencies_json_failure_empty_witness :
    read_dependencies_json (FetchOutcome.httpError "HTTP Error 404: Not Found") =
      Except.ok ([], [Event.error "HTTP Error 404: Not Found"]) :=
  (read_dependencies_json_failure_empty "HTTP Error 404: Not Found").1

/-- C6.  When a named pip-configuration file is requested but the resolved
path does not exist, the entry point logs one error and returns with that
single-event trace — no installed-set query (`Event.queryInstalled`), no
override fetch (`Event.fetch`) and no subprocess (`Event.runPip` /
`Event.runCmd`) occurs; and when no config name is given, `pip_config_found`
always passes. -/
theorem pip_config_missing_aborts (w : PipWorld) (req : StrOrSeq) (v pk uo : Bool)
    (name cp : String) (hcp : w.configs_path = some cp)
    (hex : w.pathExists (cp ++ "/" ++ name) = false) :
    pip w req v pk uo (some name) =
      Except.ok [Event.error ("Could not find pip config named " ++ name ++ " at " ++
        (cp ++ "/" ++ name))] ∧
    ∀ (p : Option String) (ex : String → Bool),
      pip_config_found none p ex = Except.ok (true, []) := by
  constructor
  · have h1 : find_pip_config_path (some name) w.configs_path =
        Except.ok (some (cp ++ "/" ++ name)) := by
      rw [hcp]; rfl
    have h2 : pip_config_found (some name) (some (cp ++ "/" ++ name)) w.pathExists =
        Except.ok (false,
          [Event.error ("Could not find pip config named " ++ name ++ " at " ++
            (cp ++ "/" ++ name))]) := by
      simp [pip_config_found, hex]
    simp [pip, h1, h2]
  · exact fun p ex => rfl

/-- World for the C6 witness: a config directory exists but no config file
does. -/
def pipWorldC6 : PipWorld :=
  ⟨some "/etc/ipydeps", fun _ => false, ∅, ∅, ∅, ∅, ∅, ∅, ∅, ⟨3, 11, 2⟩,
    FetchOutcome.httpError "", fun _ => SubprocessOutcome.success,
    fun _ => SubprocessOutcome.success, "python3", "", ""⟩

/-- Witness for C6: requesting the missing config `myconf` aborts with
exactly the one error log. -/
theorem pip_config_missing_aborts_witness :
    pip pipWorldC6 (StrOrSeq.str "numpy") false false true (some "myconf") =
      Except.ok [Event.error "Could not find pip config named myconf at /etc/ipydeps/myconf"] :=
  (pip_config_missing_aborts pipWorldC6 (StrOrSeq.str "numpy") false false true
    "myconf" "/etc/ipydeps" rfl rfl).1

/-- C7.  `subtract_stdlib` removes exactly the intersection with the
standard-library set and leaves all other entries untouched, and it logs one
warning per removed name (the warning list has exactly the intersection's
cardinality, and every removed name contributes its warning). -/
theorem subtract_stdlib_exact (stdlib packages : Finset String) :
    (∀ p, p ∈ (subtract_stdlib stdlib packages).1 ↔ p ∈ packages ∧ p ∉ stdlib) ∧
    (subtract_stdlib stdlib packages).2.length = (packages ∩ stdlib).card ∧
    ∀ p ∈ packages ∩ stdlib,
      Event.warning (stdlibWarnMsg p) ∈ (subtract_stdlib stdlib packages).2 := by
  refine ⟨fun p => ?_, ?_, fun p hp => ?_⟩
  · simp [subtract_stdlib, Finset.mem_sdiff]
  · simp [subtract_stdlib, length_sortNames]
  · exact List.mem_map_of_mem _ ((mem_sortNames _ p).mpr hp)

/-- Witness for C7 at concrete sets: requesting `numpy` and `os` against a
standard library containing `os` keeps `numpy`, drops `os`, and warns
once. -/
theorem subtract_stdlib_exact_witness :
    ("numpy" ∈ (subtract_stdlib {"os"} {"numpy", "os"}).1 ↔
      "numpy" ∈ ({"numpy", "os"} : Finset String) ∧ "numpy" ∉ ({"os"} : Finset String)) ∧
    (subtract_stdlib {"os"} {"numpy", "os"}).2.length =
      (({"numpy", "os"} : Finset String) ∩ {"os"}).card :=
  ⟨(subtract_stdlib_exact {"os"} {"numpy", "os"}).1 "numpy",
    (subtract_stdlib_exact {"os"} {"numpy", "os"}).2.1⟩

/-- C9.  On an empty requested set, `find_overrides` returns the empty
override table with an empty trace: in particular no `Event.fetch` occurs,
i.e. the remote override document is not read. -/
theorem find_overrides_empty_no_fetch (ver : PyVersion) (fetch : FetchOutcome) :
    find_overrides ∅ ver fetch = Except.ok ([], []) := rfl

/-- Witness for C9 at a concrete version and fetch outcome. -/
theorem find_overrides_empty_no_fetch_witness :
    find_overrides ∅ ⟨3, 11, 2⟩ (FetchOutcome.ok [("python-3", [("numpy", [["x"]])])]) =
      Except.ok ([], []) :=
  find_overrides_empty_no_fetch ⟨3, 11, 2⟩ (FetchOutcome.ok [("python-3", [("numpy", [["x"]])])])

theorem overrideFold_preserve (m : List (String × Cmds)) (pkg : String) (cmds : Cmds)
    (hm : dictLookup m pkg = some cmds) :
    ∀ (l : List String) (ov : List (String × Cmds)),
      dictLookup ov pkg = some cmds →
      dictLookup (l.foldl (overrideStep m) ov) pkg = some cmds := by
  intro l
  induction l with
  | nil => exact fun ov h => h
  | cons q rest ih =>
    intro ov h
    simp only [List.foldl_cons]
    apply ih
    unfold overrideStep
    cases hq : dictLookup m q with
    | none => exact h
    | some c =>
      by_cases hpq : q = pkg
      · subst hpq
        have hc : c = cmds := by
          rw [hm] at hq
          exact (Option.some.inj hq).symm
        subst hc
        exact dictLookup_dictInsert_self ov q c
      · rw [dictLookup_dictInsert_ne ov q pkg c (fun he => hpq he.symm)]
        exact h

theorem overrideFold_sets (m : List (String × Cmds)) (pkg : String) (cmds : Cmds)
    (hm : dictLookup m pkg = some cmds) :
    ∀ (l : List String) (ov : List (String × Cmds)), pkg ∈ l →
      dictLookup (l.foldl (overrideStep m) ov) pkg = some cmds := by
  intro l
  induction l with
  | nil => intro ov h; cases h
  | cons q rest ih =>
    intro ov h
    simp only [List.foldl_cons]
    rcases List.mem_cons.mp h with h1 | h1
    · subst h1
      apply overrideFold_preserve m pkg cmds hm rest
      have hstep : overrideStep m ov pkg = dictInsert ov pkg cmds := by
        unfold overrideStep
        rw [hm]
      rw [hstep]
      exact dictLookup_dictInsert_self ov pkg cmds
    · exact ih (overrideStep m ov q) h1

theorem overrideFold_skips (m : List (String × Cmds)) (pkg : String)
    (hm : dictLookup m pkg = none) :
    ∀ (l : List String) (ov : List (String × Cmds)),
      dictLookup (l.foldl (overrideStep m) ov) pkg = dictLookup ov pkg := by
  intro l
  induction l with
  | nil => intro ov; rfl
  | cons q rest ih =>
    intro ov
    simp only [List.foldl_cons]
    rw [ih (overrideStep m ov q)]
    unfold overrideStep
    cases hq : dictLookup m q with
    | none => rfl
    | some c =>
      have hpq : pkg ≠ q := by
        intro he
        subst he
        rw [hm] at hq
        cases hq
      exact dictLookup_dictInsert_ne ov q pkg c hpq

theorem applyLevel_sets (dj : DepJson) (tag pkg : String) (cmds : Cmds)
    (l : List String) (ov : List (String × Cmds))
    (h : lookup2 dj tag pkg = some cmds) (hl : pkg ∈ l) :
    dictLookup (applyLevel (dictLookup dj tag) l ov) pkg = some cmds := by
  unfold lookup2 at h
  cases htag : dictLookup dj tag with
  | none => rw [htag] at h; cases h
  | some m =>
    rw [htag] at h
    exact overrideFold_sets m pkg cmds h l ov hl

theorem applyLevel_skips (dj : DepJson) (tag pkg : String)
    (l : List String) (ov : List (String × Cmds)) (h : lookup2 dj tag pkg = none) :
    dictLookup (applyLevel (dictLookup dj tag) l ov) pkg = dictLookup ov pkg := by
  unfold lookup2 at h
  cases htag : dictLookup dj tag with
  | none => rfl
  | some m =>
    rw [htag] at h
    exact overrideFold_skips m pkg h l ov

/-- C3.  `find_overrides` picks the most version-specific entry for each
requested package: if the case-folded document resolves the package at the
micro level that entry wins; failing that a minor-level entry wins; failing
both a major-level entry is used.  The document and log list are tied to the
fetch outcome by the `read_dependencies_json` hypothesis. -/
theorem find_overrides_specificity (packages : Finset String) (ver : PyVersion)
    (fetch : FetchOutcome) (dj : DepJson) (logs : List Event) (pkg : String) (cmds : Cmds)
    (hf : read_dependencies_json fetch = Except.ok (dj, logs)) (hp : pkg ∈ packages) :
    (lookup2 dj (py_name_micro ver) pkg = some cmds →
      ∃ ov ev, find_overrides packages ver fetch = Except.ok (ov, ev) ∧
        dictLookup ov pkg = some cmds) ∧
    (lookup2 dj (py_name_micro ver) pkg = none →
     lookup2 dj (py_name_minor ver) pkg = some cmds →
      ∃ ov ev, find_overrides packages ver fetch = Except.ok (ov, ev) ∧
        dictLookup ov pkg = some cmds) ∧
    (lookup2 dj (py_name_micro ver) pkg = none →
     lookup2 dj (py_name_minor ver) pkg = none →
     lookup2 dj (py_name_major ver) pkg = some cmds →
      ∃ ov ev, find_overrides packages ver fetch = Except.ok (ov, ev) ∧
        dictLookup ov pkg = some cmds) := by
  have hcard : ¬packages.card = 0 := Finset.card_ne_zero_of_mem hp
  have hl : pkg ∈ sortNames packages := (mem_sortNames packages pkg).mpr hp
  have hfo : ∀ P : List (String × Cmds) → Prop,
      P (applyLevel (dictLookup dj (py_name_micro ver)) (sortNames packages)
          (applyLevel (dictLookup dj (py_name_minor ver)) (sortNames packages)
            (applyLevel (dictLookup dj (py_name_major ver)) (sortNames packages) []))) →
      ∃ ov ev, find_overrides packages ver fetch = Except.ok (ov, ev) ∧ P ov := by
    intro P hP
    refine ⟨_, Event.fetch :: logs, ?_, hP⟩
    unfold find_overrides
    rw [if_neg hcard, hf]
  refine ⟨fun h3 => ?_, fun h3 h2 => ?_, fun h3 h2 h1 => ?_⟩
  · exact hfo _ (applyLevel_sets dj _ pkg cmds _ _ h3 hl)
  · refine hfo _ ?_
    rw [applyLevel_skips dj _ pkg _ _ h3]
    exact applyLevel_sets dj _ pkg cmds _ _ h2 hl
  · refine hfo _ ?_
    rw [applyLevel_skips dj _ pkg _ _ h3, applyLevel_skips dj _ pkg _ _ h2]
    exact applyLevel_sets dj _ pkg cmds _ _ h1 hl

/-- Override document for the C3 witness: the same package at all three
specificity levels with distinct commands. -/
def depDoc3 : DepJson :=
  [("python-3", [("numpy", [["major-cmd"]])]),
   ("python-3.11", [("numpy", [["minor-cmd"]])]),
   ("python-3.11.2", [("numpy", [["micro-cmd"]])])]

/-- Witness for C3: on Python 3.11.2 the micro-level entry wins. -/
theorem find_overrides_specificity_witness :
    ∃ ov ev, find_overrides {"numpy"} ⟨3, 11, 2⟩ (FetchOutcome.ok depDoc3) =
      Except.ok (ov, ev) ∧ dictLookup ov "numpy" = some [["micro-cmd"]] :=
  (find_overrides_specificity {"numpy"} ⟨3, 11, 2⟩ (FetchOutcome.ok depDoc3) depDoc3 []
    "numpy" [["micro-cmd"]] rfl (by decide)).1 (by decide)

/-- The characters a `package_name_pattern` match can contain: the name
classes plus the comparator and version characters. -/
def isTokenChar (c : Char) : Bool :=
  isAlphaChar c || isDigitChar c || c == '_' || c == '-' ||
    c == '<' || c == '>' || c == '=' || c == '.'

/-- The characters the version-specifier group can contain. -/
def isVersionChar (c : Char) : Bool :=
  c == '<' || c == '>' || c == '=' || c == '.' || isDigitChar c

theorem token_of_nameTail (c : Char) (h : isNameTail c = true) : isTokenChar c = true := by
  simp only [isNameTail, Bool.or_eq_true] at h
  simp only [isTokenChar, Bool.or_eq_true]
  tauto

theorem token_of_version (c : Char) (h : isVersionChar c = true) : isTokenChar c = true := by
  simp only [isVersionChar, Bool.or_eq_true] at h
  simp only [isTokenChar, Bool.or_eq_true]
  tauto

theorem dotDigitsRun_chars (fuel : Nat) :
    ∀ (l : List Char) (c : Char), c ∈ (dotDigitsRun fuel l).1 →
      c = '.' ∨ isDigitChar c = true := by
  induction fuel with
  | zero => intro l c h; simp [dotDigitsRun] at h
  | succ n ih =>
    intro l c h
    cases l with
    | nil => simp [dotDigitsRun] at h
    | cons a r =>
      by_cases hp : a = '.'
      · subst hp
        by_cases hd : (r.takeWhile isDigitChar).isEmpty
        · simp [dotDigitsRun, hd] at h
        · have heq : (dotDigitsRun (n + 1) ('.' :: r)).1 =
              '.' :: (r.takeWhile isDigitChar ++
                (dotDigitsRun n (r.dropWhile isDigitChar)).1) := by
            simp [dotDigitsRun, hd]
          rw [heq] at h
          rcases List.mem_cons.mp h with rfl | hm
          · exact Or.inl rfl
          · rcases List.mem_append.mp hm with hm1 | hm1
            · exact Or.inr (List.mem_takeWhile_imp hm1)
            · exact ih _ c hm1
      · simp [dotDigitsRun, hp] at h

theorem matchVersionAfterOp_chars (l t r : List Char)
    (h : matchVersionAfterOp l = some (t, r)) :
    ∀ c ∈ t, c = '.' ∨ isDigitChar c = true := by
  intro c hc
  by_cases h1 : (l.takeWhile isDigitChar).isEmpty
  · simp [matchVersionAfterOp, h1] at h
  · cases hd : l.dropWhile isDigitChar with
    | nil => simp [matchVersionAfterOp, h1, hd] at h
    | cons c2 r2 =>
      by_cases hc2 : c2 = '.'
      · subst hc2
        by_cases h2 : (r2.takeWhile isDigitChar).isEmpty
        · simp [matchVersionAfterOp, h1, hd, h2] at h
        · have heq : matchVersionAfterOp l =
              some (l.takeWhile isDigitChar ++ '.' :: (r2.takeWhile isDigitChar ++
                  (dotDigitsRun (r2.dropWhile isDigitChar).length
                    (r2.dropWhile isDigitChar)).1),
                (dotDigitsRun (r2.dropWhile isDigitChar).length
                  (r2.dropWhile isDigitChar)).2) := by
            simp [matchVersionAfterOp, h1, hd, h2]
          rw [heq] at h
          injection h with hpe
          injection hpe with ht hr
          subst ht
          rcases List.mem_append.mp hc with hm | hm
          · exact Or.inr (List.mem_takeWhile_imp hm)
          · rcases List.mem_cons.mp hm with rfl | hm2
            · exact Or.inl rfl
            · rcases List.mem_append.mp hm2 with hm3 | hm3
              · exact Or.inr (List.mem_takeWhile_imp hm3)
              · exact dotDigitsRun_chars _ _ c hm3
      · simp [matchVersionAfterOp, h1, hd, hc2] at h

theorem tryOp1_chars (op : Char) (l t r : List Char) (h : tryOp1 op l = some (t, r)) :
    ∀ c ∈ t, c = op ∨ c = '.' ∨ isDigitChar c = true := by
  intro c hc
  cases l with
  | nil => simp [tryOp1] at h
  | cons x xs =>
    by_cases hx : x = op
    · cases hv : matchVersionAfterOp xs with
      | none => simp [tryOp1, hx, hv] at h
      | some p =>
        simp only [tryOp1, hx, hv, if_pos, Option.some.injEq, Prod.mk.injEq] at h
        rcases h with ⟨ht, hr⟩
        subst ht
        rcases List.mem_cons.mp hc with rfl | hm
        · exact Or.inl rfl
        · rcases matchVersionAfterOp_chars xs p.1 p.2 (by rw [hv]) c hm with h3 | h3
          · exact Or.inr (Or.inl h3)
          · exact Or.inr (Or.inr h3)
    · simp [tryOp1, hx] at h

theorem tryOp2_chars (op1 op2 : Char) (l t r : List Char) (h : tryOp2 op1 op2 l = some (t, r)) :
    ∀ c ∈ t, c = op1 ∨ c = op2 ∨ c = '.' ∨ isDigitChar c = true := by
  intro c hc
  cases l with
  | nil => simp [tryOp2] at h
  | cons x xs =>
    cases xs with
    | nil => simp [tryOp2] at h
    | cons y ys =>
      by_cases hx : x = op1 ∧ y = op2
      · obtain ⟨hx1, hx2⟩ := hx
        cases hv : matchVersionAfterOp ys with
        | none => simp [tryOp2, hx1, hx2, hv] at h
        | some p =>
          have heq : tryOp2 op1 op2 (x :: y :: ys) = some (op1 :: op2 :: p.1, p.2) := by
            simp [tryOp2, hx1, hx2, hv]
          rw [heq] at h
          injection h with hpe
          injection hpe with ht hr
          subst ht
          rcases List.mem_cons.mp hc with rfl | hm
          · exact Or.inl rfl
          · rcases List.mem_cons.mp hm with rfl | hm2
            · exact Or.inr (Or.inl rfl)
            · rcases matchVersionAfterOp_chars ys p.1 p.2 (by rw [hv]) c hm2 with h3 | h3
              · exact Or.inr (Or.inr (Or.inl h3))
              · exact Or.inr (Or.inr (Or.inr h3))
      · simp [tryOp2, hx] at h

theorem matchVersion_chars (l t r : List Char) (h : matchVersion l = some (t, r)) :
    ∀ c ∈ t, isVersionChar c = true := by
  intro c hc
  unfold matchVersion at h
  cases h1 : tryOp1 '<' l with
  | some p =>
    rw [h1] at h
    have hp : p = (t, r) := Option.some.inj h
    subst hp
    rcases tryOp1_chars '<' l t r h1 c hc with h3 | h3 | h3 <;>
      simp [isVersionChar, h3]
  | none =>
    rw [h1] at h
    cases h2 : tryOp1 '>' l with
    | some p =>
      rw [h2] at h
      have hp : p = (t, r) := Option.some.inj h
      subst hp
      rcases tryOp1_chars '>' l t r h2 c hc with h3 | h3 | h3 <;>
        simp [isVersionChar, h3]
    | none =>
      rw [h2] at h
      cases h3 : tryOp2 '<' '=' l with
      | some p =>
        rw [h3] at h
        have hp : p = (t, r) := Option.some.inj h
        subst hp
        rcases tryOp2_chars '<' '=' l t r h3 c hc with h4 | h4 | h4 | h4 <;>
          simp [isVersionChar, h4]
      | none =>
        rw [h3] at h
        cases h4 : tryOp2 '>' '=' l with
        | some p =>
          rw [h4] at h
          have hp : p = (t, r) := Option.some.inj h
          subst hp
          rcases tryOp2_chars '>' '=' l t r h4 c hc with h5 | h5 | h5 | h5 <;>
            simp [isVersionChar, h5]
        | none =>
          rw [h4] at h
          rcases tryOp2_chars '=' '=' l t r h c hc with h5 | h5 | h5 | h5 <;>
            simp [isVersionChar, h5]

theorem matchAt_shape (l t r : List Char) (h : matchAt l = some (t, r)) :
    2 ≤ t.length ∧ ∀ c ∈ t, isTokenChar c = true := by
  cases l with
  | nil => simp [matchAt] at h
  | cons c0 cs =>
    by_cases ha : isAlphaChar c0
    · by_cases hn : (cs.takeWhile isNameTail).isEmpty
      · simp [matchAt, ha, hn] at h
      · have hne : ¬cs.takeWhile isNameTail = [] := by
          simpa [List.isEmpty_iff] using hn
        have hlen : 0 < (cs.takeWhile isNameTail).length := List.length_pos.mpr hne
        cases hv : matchVersion (cs.dropWhile isNameTail) with
        | some p =>
          have heq : matchAt (c0 :: cs) =
              some (c0 :: (cs.takeWhile isNameTail ++ p.1), p.2) := by
            simp [matchAt, ha, hn, hv]
          rw [heq] at h
          injection h with hpe
          injection hpe with ht hr
          subst ht
          refine ⟨?_, fun c hc => ?_⟩
          · simp only [List.length_cons, List.length_append]
            omega
          · rcases List.mem_cons.mp hc with rfl | hm
            · simp [isTokenChar, ha]
            · rcases List.mem_append.mp hm with hm1 | hm1
              · exact token_of_nameTail c (List.mem_takeWhile_imp hm1)
              · exact token_of_version c
                  (matchVersion_chars _ p.1 p.2 (by rw [hv]) c hm1)
        | none =>
          have heq : matchAt (c0 :: cs) =
              some (c0 :: cs.takeWhile isNameTail, cs.dropWhile isNameTail) := by
            simp [matchAt, ha, hn, hv]
          rw [heq] at h
          injection h with hpe
          injection hpe with ht hr
          subst ht
          refine ⟨?_, fun c hc => ?_⟩
          · simp only [List.length_cons]
            omega
          · rcases List.mem_cons.mp hc with rfl | hm
            · simp [isTokenChar, ha]
            · exact token_of_nameTail c (List.mem_takeWhile_imp hm)
    · simp [matchAt, ha] at h

theorem findallFuel_mem (fuel : Nat) :
    ∀ (l t : List Char), t ∈ findallFuel fuel l →
      ∃ l2 r, matchAt l2 = some (t, r) := by
  induction fuel with
  | zero => intro l t h; simp [findallFuel] at h
  | succ n ih =>
    intro l t h
    cases l with
    | nil => simp [findallFuel] at h
    | cons c r =>
      cases hm : matchAt (c :: r) with
      | some p =>
        simp only [findallFuel, hm, List.mem_cons] at h
        rcases h with rfl | h
        · exact ⟨c :: r, p.2, by rw [hm]⟩
        · exact ih p.2 t h
      | none =>
        simp only [findallFuel, hm] at h
        exact ih r t h

theorem dropWhile_eq_self_of_not (p : Char → Bool) (l : List Char)
    (h : ∀ c ∈ l, p c = false) : l.dropWhile p = l := by
  cases l with
  | nil => rfl
  | cons a r => simp [List.dropWhile, h a (List.mem_cons_self a r)]

theorem stripChars_eq_self (l : List Char) (h : ∀ c ∈ l, isPySpace c = false) :
    stripChars l = l := by
  unfold stripChars
  rw [dropWhile_eq_self_of_not _ _ h]
  rw [dropWhile_eq_self_of_not _ _ (fun c hc => h c (List.mem_reverse.mp hc))]
  exact List.reverse_reverse l

theorem isTokenChar_not_space (c : Char) (h : isTokenChar c = true) : isPySpace c = false := by
  cases hs : isPySpace c
  · rfl
  · exfalso
    have hcs : c = ' ' ∨ c = '\t' ∨ c = '\n' ∨ c = '\r' ∨ c = '\x0b' ∨ c = '\x0c' := by
      simpa [isPySpace, Bool.or_eq_true, beq_iff_eq, or_assoc] using hs
    rcases hcs with rfl | rfl | rfl | rfl | rfl | rfl <;> exact absurd h (by decide)

theorem valid_pkg_names_shape (s q : String) (hq : q ∈ valid_pkg_names s) :
    2 ≤ q.length ∧ ∀ c ∈ q.toList, isTokenChar c = true := by
  unfold valid_pkg_names at hq
  rcases List.mem_map.mp hq with ⟨t, ht, rfl⟩
  rcases findallFuel_mem _ _ _ ht with ⟨l2, r, hm⟩
  exact matchAt_shape l2 t r hm

theorem get_pkg_names_shape (x : StrOrSeq) (p : String) (hp : p ∈ get_pkg_names x) :
    p ∈ valid_pkg_names (joinInput x) ∧ 2 ≤ p.length := by
  unfold get_pkg_names at hp
  rw [List.mem_toFinset] at hp
  rcases List.mem_filter.mp hp with ⟨hmem, hlen⟩
  rcases List.mem_map.mp hmem with ⟨q, hq, rfl⟩
  have hs := valid_pkg_names_shape _ q hq
  have hid : pyStrip q = q := by
    unfold pyStrip
    rw [stripChars_eq_self q.toList (fun c hc => isTokenChar_not_space c (hs.2 c hc))]
    rfl
  rw [hid]
  exact ⟨hq, hs.1⟩

/-- C8.  Every name `get_pkg_names` returns is a non-empty token and is
literally one of the regex matches that `valid_pkg_names` extracts from the
joined input — only substrings matching the safelist pattern appear, and
anything else in the input is silently dropped rather than rejected (the
result is a set, so it is deduplicated by construction). -/
theorem get_pkg_names_safelist (x : StrOrSeq) (p : String) (hp : p ∈ get_pkg_names x) :
    0 < p.length ∧ p ∈ valid_pkg_names (joinInput x) := by
  have h := get_pkg_names_shape x p hp
  exact ⟨by omega, h.1⟩

/-- Witness for C8: from the mixed input `"numpy>=1.2 os b@d!"` the name
`numpy>=1.2` is returned and is a regex match of the joined input. -/
theorem get_pkg_names_safelist_witness :
    0 < ("numpy>=1.2" : String).length ∧
      "numpy>=1.2" ∈ valid_pkg_names (joinInput (StrOrSeq.str "numpy>=1.2 os b@d!")) :=
  get_pkg_names_safelist (StrOrSeq.str "numpy>=1.2 os b@d!") "numpy>=1.2" (by decide)

/-- C10.  `get_pkg_names` never yields a name of fewer than two characters:
the safelist regex demands a leading letter and at least one further
name character, so one-character tokens are always dropped. -/
theorem get_pkg_names_min_length (x : StrOrSeq) (p : String) (hp : p ∈ get_pkg_names x) :
    2 ≤ p.length :=
  (get_pkg_names_shape x p hp).2

/-- Witness for C10: from `"a ab"` only `ab` is returned (the single-letter
`a` is dropped), and its length is at least two. -/
theorem get_pkg_names_min_length_witness : 2 ≤ ("ab" : String).length :=
  get_pkg_names_min_length (StrOrSeq.str "a ab") "ab" (by decide)

end Ipydeps

